import Mathlib

/-!
Verification of the `sugar` worker-pool library (`sync/pool/error_pool.go`)
and its error-aggregation collaborator, as a shallow embedding in Lean.

The embedding follows the Go source where it is present in the repository
(`ErrorPool` and its methods in `sync/pool/error_pool.go`).  The plain
`Pool`, the `ContextPool` struct, the `Limiter` and the
`errors.Append`/multi-error implementation are not among the provided
source files (only their callers and tests are), so those parts are
modelled from the specification, as marked on each such definition.

Go's `error` interface value is embedded as `Option GoError`, with `none`
standing for Go's `nil` error. Mutex-guarded mutation is embedded by
folding the (lock-serialised) sequence of task completions over the pool
state: the list argument is the order in which completions acquired the
lock, which may be any permutation/interleaving of the submissions.
-/

namespace Sugar

/-- Modelled from the spec (the multi-error implementation in the `errors`
package is not among the provided sources): an error value is either a
leaf error, carried by its rendered message text, or a flattened aggregate
holding the ordered sequence of its leaves' rendered messages. -/
inductive GoError where
  | leaf (msg : String)
  | multi (msgs : List String)
deriving DecidableEq

/-- The leaf sequence of an error value: a leaf contributes itself, an
aggregate contributes its (already flattened) leaves. -/
def GoError.leaves : GoError → List String
  | .leaf m => [m]
  | .multi ms => ms

/-- The leaf sequence of a possibly-nil error: Go `nil` has no leaves. -/
def leavesOpt : Option GoError → List String
  | none => []
  | some e => e.leaves

/-- Modelled from the spec: `combine(a, b)` — if either input denotes
"no error", return the other; otherwise return a new aggregate whose leaf
sequence is `leaves(a) ++ leaves(b)` (flattening nested aggregates).
This is the `errors.Append` operation consumed by `ErrorPool.addErr`;
its implementation file is not among the provided sources. -/
def Append (a b : Option GoError) : Option GoError :=
  match a, b with
  | none, b => b
  | some x, none => some x
  | some x, some y => some (.multi (x.leaves ++ y.leaves))

/-- Modelled from the spec: the visible separator used when rendering an
aggregate, joining each leaf's message. -/
def errSeparator : String := "; "

/-- Modelled from the spec: rendering an error to text (Go's
`Error() string`); an aggregate joins each leaf's message with a visible
separator so partial failures remain individually legible. -/
def GoError.render : GoError → String
  | .leaf m => m
  | .multi ms => String.intercalate errSeparator ms

/-- Decides whether `sub` occurs at the start of `l`. -/
def leadsWith : List Char → List Char → Bool
  | [], _ => true
  | _ :: _, [] => false
  | a :: as, b :: bs => a == b && leadsWith as bs

/-- Decides whether `sub` occurs contiguously anywhere inside `l`. -/
def occursIn (sub : List Char) : List Char → Bool
  | [] => leadsWith sub []
  | b :: bs => leadsWith sub (b :: bs) || occursIn sub bs

/-- `sub` is a substring of `s` (contiguous occurrence). -/
def containsSub (sub s : String) : Bool :=
  occursIn sub.toList s.toList

/-- Modelled from the spec: a captured fault (recovered panic) — the
original payload together with a stack snapshot. -/
structure Fault where
  payload : String
  stack : String
deriving DecidableEq

/-- Modelled from the spec (the plain pool's `pool.go` is not among the
provided sources): the inner `Pool` holds the limiter capacity
(`none` = unbounded), the outstanding-task counter, and the
first-captured fault slot. -/
structure Pool where
  limit : Option Nat
  outstanding : Nat
  fault : Option Fault
deriving DecidableEq

/-- Modelled from the spec: `Pool.deref` produces a fresh pool copying
only configuration — the spec requires that a derived pool shares no
counters or fault state with its source, so the mutable fields are at
their zero values. -/
def Pool.deref (p : Pool) : Pool :=
  { limit := p.limit, outstanding := 0, fault := none }

/-- Modelled from the spec: the pool recovers a task's fault locally and
captures the first such fault if none is captured yet; subsequent faults
are observed but discarded. -/
def Pool.captureFault (p : Pool) (f : Fault) : Pool :=
  match p.fault with
  | none => { p with fault := some f }
  | some _ => p

/-- Modelled from the spec: `Pool.wait`, observed at the point where all
outstanding tasks have completed (the drain): if a fault was captured it
is re-raised to the caller (the `Except.error` branch) rather than
returned as a value; otherwise `wait` returns normally. -/
def Pool.wait (p : Pool) : Except Fault Unit :=
  match p.fault with
  | some f => .error f
  | none => .ok ()

/-- The `ErrorPool` of `sync/pool/error_pool.go`: an inner `Pool`, the
`onlyFirstError` flag, and the mutex-guarded error state `errs`
(the mutex itself is embedded by the serialisation of `addErr` calls,
see `runAll`). -/
structure ErrorPool where
  pool : Pool
  onlyFirstError : Bool
  errs : Option GoError
deriving DecidableEq

/-- `ErrorPool.addErr` from the source: a nil task error is ignored;
otherwise, under the lock, first-error mode stores the error only when
none is stored yet, and the default mode merges it into the running
aggregate with `errors.Append`. -/
def ErrorPool.addErr (p : ErrorPool) (err : Option GoError) : ErrorPool :=
  match err with
  | none => p
  | some e =>
    if p.onlyFirstError then
      if p.errs = none then { p with errs := some e } else p
    else
      { p with errs := Append p.errs (some e) }

/-- A finite batch of submitted tasks, each of which completed and
returned the given error value: the completions funnel through the mutex
in list order, each invoking `addErr` (this is the body `p.addErr (f ())`
that `ErrorPool.Go` wraps around each task). -/
def ErrorPool.runAll (p : ErrorPool) (results : List (Option GoError)) : ErrorPool :=
  results.foldl ErrorPool.addErr p

/-- `ErrorPool.Wait` from the source: waits on the inner pool (which
re-raises a captured fault, here the `Except.error` branch) and then
returns the stored error state. -/
def ErrorPool.Wait (p : ErrorPool) : Except Fault (Option GoError) :=
  match p.pool.wait with
  | .error f => .error f
  | .ok _ => .ok p.errs

/-- The outcome of executing one task body: it either returned an error
value (possibly nil) or raised a fault (panicked). -/
inductive TaskOutcome where
  | ret (err : Option GoError)
  | fault (f : Fault)
deriving DecidableEq

/-- One task completion observed by the pool: a returned outcome reaches
`addErr` (the wrapped body `p.addErr (f ())`); a fault never reaches
`addErr` — the inner pool recovers it and captures the first one. -/
def ErrorPool.step (p : ErrorPool) (o : TaskOutcome) : ErrorPool :=
  match o with
  | .ret e => p.addErr e
  | .fault f => { p with pool := p.pool.captureFault f }

/-- Draining a batch of task completions, faults included, in the order
the executions completed. -/
def ErrorPool.drain (p : ErrorPool) (os : List TaskOutcome) : ErrorPool :=
  os.foldl ErrorPool.step p

/-- The error value of a returned outcome; faults carry none. -/
def TaskOutcome.retErr : TaskOutcome → Option (Option GoError)
  | .ret e => some e
  | .fault _ => none

/-- The first fault among a batch of completions, in completion order. -/
def firstFault (os : List TaskOutcome) : Option Fault :=
  os.findSome? fun o => match o with
    | .ret _ => none
    | .fault f => some f

/-- A freshly constructed error pool, as produced by
`New().WithErrors()` (optionally `.WithFirstError()`): no limiter bound,
no outstanding tasks, no captured fault, nil error state. -/
def cleanPool (firstErr : Bool) : ErrorPool :=
  { pool := { limit := none, outstanding := 0, fault := none }
    onlyFirstError := firstErr
    errs := none }

/-- The cancellation context, as far as the pool manipulates it: the
background (or caller-supplied) context, or a cancelable child derived
from a parent by `context.WithCancel`. -/
inductive Context where
  | background
  | cancelable (parent : Context)
deriving DecidableEq

/-- Modelled from the spec (the `ContextPool` struct's own file is not
among the provided sources; its construction is visible in
`ErrorPool.WithContext`): an embedded `ErrorPool` plus the derived
cancelable context (the cancel function is the context's one-shot
cancellation capability and carries no further state). -/
structure ContextPool where
  errorPool : ErrorPool
  ctx : Context
deriving DecidableEq

/-- `ErrorPool.deref` from the source: a copy carrying a fresh inner pool
(`p.pool.deref()`) and the same `onlyFirstError` flag; the mutex and
`errs` fields are left at their zero values (`errs = nil`). -/
def ErrorPool.deref (p : ErrorPool) : ErrorPool :=
  { pool := p.pool.deref, onlyFirstError := p.onlyFirstError, errs := none }

/-- `ErrorPool.WithContext` from the source: derives a cancelable child
context from `ctx` via `context.WithCancel` and returns a `ContextPool`
whose embedded error pool is `p.deref()`. -/
def ErrorPool.withContext (p : ErrorPool) (ctx : Context) : ContextPool :=
  { errorPool := p.deref, ctx := Context.cancelable ctx }

/-- The configuration errors the spec's state machine prescribes for
invalid `with*` calls: an out-of-range concurrency bound, or a
configuration call outside the Configuring state. -/
inductive ConfigError where
  | badBound
  | configAfterStart
deriving DecidableEq

/-- `ErrorPool.WithFirstError` from the source, with its possible failure
made explicit in the type so the spec's claimed fail-fast behaviour is
expressible: the source method performs no lifecycle check and
unconditionally sets the flag and returns the pool, so the result is
always `Except.ok`. -/
def ErrorPool.withFirstErrorChecked (p : ErrorPool) : Except ConfigError ErrorPool :=
  .ok { p with onlyFirstError := true }

/-- The configuration a derived context pool is built from: only the
`onlyFirstError` flag and the limiter bound of the source survive into
the derived pool; every mutable field starts fresh. -/
def freshContextPool (firstErr : Bool) (limit : Option Nat) (ctx : Context) : ContextPool :=
  { errorPool :=
      { pool := { limit := limit, outstanding := 0, fault := none }
        onlyFirstError := firstErr
        errs := none }
    ctx := Context.cancelable ctx }

/-- One concurrency event at the limiter: a task entering execution
(`acquire` succeeded) or a task finishing (`release`). -/
inductive PoolEvent where
  | start
  | finish
deriving DecidableEq

/-- Modelled from the spec: `Pool.WithMaxGoroutines` (delegated to by
`ErrorPool.WithMaxGoroutines` in the source; the inner pool's own file is
not among the provided sources) sets the limiter capacity. -/
def Pool.withMaxGoroutines (p : Pool) (n : Nat) : Pool :=
  { p with limit := some n }

/-- `ErrorPool.WithMaxGoroutines` from the source: delegates to the inner
pool's capacity setter and returns the pool. -/
def ErrorPool.WithMaxGoroutines (p : ErrorPool) (n : Nat) : ErrorPool :=
  { p with pool := p.pool.withMaxGoroutines n }

/-- Modelled from the spec: admissibility of an execution trace under a
limiter of capacity `n`, given `a` currently executing tasks — `acquire`
blocks until a slot is free, so a task can only start while fewer than
`n` are active, and only an active task can finish. -/
def traceOk (n : Nat) : Nat → List PoolEvent → Bool
  | _, [] => true
  | a, .start :: rest => decide (a < n) && traceOk n (a + 1) rest
  | a, .finish :: rest => decide (0 < a) && traceOk n (a - 1) rest

/-- The highest number of concurrently executing tasks reached along a
trace that begins with `a` tasks active. -/
def maxActive (a : Nat) : List PoolEvent → Nat
  | [] => a
  | .start :: rest => max a (maxActive (a + 1) rest)
  | .finish :: rest => max a (maxActive (a - 1) rest)

/-! ## Helper lemmas -/

/-- `addErr` never touches the inner pool or the error-mode flag. -/
theorem addErr_frame (p : ErrorPool) (e : Option GoError) :
    (p.addErr e).onlyFirstError = p.onlyFirstError ∧ (p.addErr e).pool = p.pool := by
  cases e with
  | none => exact ⟨rfl, rfl⟩
  | some x =>
    by_cases hf : p.onlyFirstError = true <;> by_cases he : p.errs = none <;>
      simp [ErrorPool.addErr, hf, he]

/-- The error state after `addErr` is occupied exactly when it was
already occupied or the incoming error is non-nil. -/
theorem addErr_errs_isSome (p : ErrorPool) (e : Option GoError) :
    ((p.addErr e).errs).isSome = (p.errs.isSome || e.isSome) := by
  cases e with
  | none => simp [ErrorPool.addErr]
  | some x =>
    cases hp : p.errs with
    | none => cases hf : p.onlyFirstError <;> simp [ErrorPool.addErr, hp, hf, Append]
    | some y => cases hf : p.onlyFirstError <;> simp [ErrorPool.addErr, hp, hf, Append]

/-- Running a batch of completions never touches the inner pool or the
error-mode flag. -/
theorem runAll_frame (p : ErrorPool) (l : List (Option GoError)) :
    (p.runAll l).onlyFirstError = p.onlyFirstError ∧ (p.runAll l).pool = p.pool := by
  induction l generalizing p with
  | nil => exact ⟨rfl, rfl⟩
  | cons e rest ih =>
    have h := addErr_frame p e
    have h2 := ih (p.addErr e)
    exact ⟨h2.1.trans h.1, h2.2.trans h.2⟩

/-- The error state after a batch is occupied exactly when it started
occupied or some completion returned a non-nil error. -/
theorem runAll_errs_isSome (p : ErrorPool) (l : List (Option GoError)) :
    ((p.runAll l).errs).isSome = (p.errs.isSome || l.any Option.isSome) := by
  induction l generalizing p with
  | nil => simp [ErrorPool.runAll]
  | cons e rest ih =>
    have hcons : p.runAll (e :: rest) = (p.addErr e).runAll rest := rfl
    rw [hcons, ih, addErr_errs_isSome]
    simp [Bool.or_assoc]

/-- All-nil completions are exactly the absence of any non-nil one. -/
theorem all_isNone_eq_not_any_isSome (l : List (Option GoError)) :
    l.all Option.isNone = !l.any Option.isSome := by
  induction l with
  | nil => rfl
  | cons e rest ih => cases e <;> simp [ih]

/-- In first-error mode, a stored error persists through any further
batch of completions. -/
theorem first_persist (p : ErrorPool) (l : List (Option GoError)) (x : GoError)
    (hf : p.onlyFirstError = true) (hx : p.errs = some x) :
    (p.runAll l).errs = some x := by
  induction l generalizing p with
  | nil => exact hx
  | cons e rest ih =>
    have hstep : (p.addErr e).errs = some x ∧ (p.addErr e).onlyFirstError = true := by
      cases e with
      | none => exact ⟨hx, hf⟩
      | some y => simp [ErrorPool.addErr, hf, hx]
    exact ih (p.addErr e) hstep.2 hstep.1

/-- In first-error mode, starting from a nil error state, the stored
error after a batch is one of the errors the batch's tasks returned. -/
theorem first_mem (p : ErrorPool) (l : List (Option GoError)) (e : GoError)
    (hf : p.onlyFirstError = true) (hn : p.errs = none)
    (h : (p.runAll l).errs = some e) : some e ∈ l := by
  induction l generalizing p with
  | nil =>
    rw [show p.runAll [] = p from rfl, hn] at h
    exact absurd h (by simp)
  | cons e' rest ih =>
    cases e' with
    | none =>
      have hcons : p.runAll (none :: rest) = p.runAll rest := rfl
      rw [hcons] at h
      exact List.mem_cons_of_mem _ (ih p hf hn h)
    | some y =>
      have hstep : p.addErr (some y) = { p with errs := some y } := by
        simp [ErrorPool.addErr, hf, hn]
      have hcons : p.runAll (some y :: rest) = (p.addErr (some y)).runAll rest := rfl
      rw [hcons, hstep] at h
      have hy : (({ p with errs := some y } : ErrorPool).runAll rest).errs = some y :=
        first_persist _ rest y hf rfl
      rw [hy] at h
      rw [← h]
      exact List.mem_cons_self _ _

/-- Replacing the inner pool commutes with running a batch of
completions: `addErr` never reads the inner pool. -/
theorem runAll_setPool (p : ErrorPool) (q : Pool) (l : List (Option GoError)) :
    ({ p with pool := q } : ErrorPool).runAll l = { p.runAll l with pool := q } := by
  induction l generalizing p with
  | nil => rfl
  | cons e rest ih =>
    have hstep : ({ p with pool := q } : ErrorPool).addErr e = { p.addErr e with pool := q } := by
      cases e with
      | none => rfl
      | some x =>
        by_cases hf : p.onlyFirstError = true <;> by_cases he : p.errs = none <;>
          simp [ErrorPool.addErr, hf, he]
    have hcons : ({ p with pool := q } : ErrorPool).runAll (e :: rest)
        = (({ p with pool := q } : ErrorPool).addErr e).runAll rest := rfl
    rw [hcons, hstep]
    exact ih (p.addErr e)

/-- Draining a batch of outcomes updates the error state exactly as
running the returned (non-faulting) completions does, and never touches
the error-mode flag. -/
theorem drain_errs (p : ErrorPool) (os : List TaskOutcome) :
    (p.drain os).errs = (p.runAll (os.filterMap TaskOutcome.retErr)).errs ∧
    (p.drain os).onlyFirstError = p.onlyFirstError := by
  induction os generalizing p with
  | nil => exact ⟨rfl, rfl⟩
  | cons o rest ih =>
    cases o with
    | ret e =>
      have hcons : p.drain (.ret e :: rest) = (p.addErr e).drain rest := rfl
      have hfm : (TaskOutcome.ret e :: rest).filterMap TaskOutcome.retErr
          = e :: rest.filterMap TaskOutcome.retErr := rfl
      rw [hcons, hfm]
      have h := ih (p.addErr e)
      exact ⟨h.1, h.2.trans (addErr_frame p e).1⟩
    | fault f =>
      have hcons : p.drain (.fault f :: rest)
          = ({ p with pool := p.pool.captureFault f } : ErrorPool).drain rest := rfl
      have hfm : (TaskOutcome.fault f :: rest).filterMap TaskOutcome.retErr
          = rest.filterMap TaskOutcome.retErr := rfl
      rw [hcons, hfm]
      have h := ih ({ p with pool := p.pool.captureFault f } : ErrorPool)
      rw [runAll_setPool] at h
      exact h

/-- Draining a batch captures the first fault of the batch, unless a
fault was captured before the batch began. -/
theorem drain_fault (p : ErrorPool) (os : List TaskOutcome) :
    (p.drain os).pool.fault =
      (match p.pool.fault with
        | some g => some g
        | none => firstFault os) := by
  induction os generalizing p with
  | nil => cases hp : p.pool.fault <;> simp [ErrorPool.drain, firstFault, hp]
  | cons o rest ih =>
    cases o with
    | ret e =>
      have hcons : p.drain (.ret e :: rest) = (p.addErr e).drain rest := rfl
      have hff : firstFault (.ret e :: rest) = firstFault rest := rfl
      rw [hcons, hff, ih, (addErr_frame p e).2]
    | fault f =>
      have hcons : p.drain (.fault f :: rest)
          = ({ p with pool := p.pool.captureFault f } : ErrorPool).drain rest := rfl
      rw [hcons, ih]
      cases hp : p.pool.fault with
      | none => simp [Pool.captureFault, hp, firstFault]
      | some g => simp [Pool.captureFault, hp, firstFault]

/-- Peak concurrency along an admissible trace never exceeds the
capacity, whatever the starting occupancy. -/
theorem maxActive_le (n : Nat) (t : List PoolEvent) : ∀ a : Nat,
    a ≤ n → traceOk n a t = true → maxActive a t ≤ n := by
  induction t with
  | nil => intro a ha _; exact ha
  | cons ev rest ih =>
    intro a ha ht
    cases ev with
    | start =>
      rw [traceOk] at ht
      have h12 := (Bool.and_eq_true _ _).mp ht
      have h1 : a < n := of_decide_eq_true h12.1
      exact max_le ha (ih (a + 1) h1 h12.2)
    | finish =>
      rw [traceOk] at ht
      have h12 := (Bool.and_eq_true _ _).mp ht
      exact max_le ha (ih (a - 1) (Nat.le_trans (Nat.sub_le a 1) ha) h12.2)

/-! ## Claim theorems -/

/-- C1: for every finite batch of tasks submitted via `ErrorPool.Go` and
then completed, `ErrorPool.Wait` returns the no-error sentinel (`nil`)
if and only if every submitted task returned `nil`; equivalently, the
stored error state is non-nil exactly when some task returned a non-nil
error.  Holds in both error modes `b`. -/
theorem errorPool_wait_nil_iff_all_nil (b : Bool) (l : List (Option GoError)) :
    (((cleanPool b).runAll l).Wait = Except.ok none ↔ l.all Option.isNone = true)
    ∧ ((cleanPool b).runAll l).errs.isSome = l.any Option.isSome := by
  have hframe := (runAll_frame (cleanPool b) l).2
  have hfault : ((cleanPool b).runAll l).pool.fault = none := by rw [hframe]; rfl
  have hw : ((cleanPool b).runAll l).Wait = Except.ok ((cleanPool b).runAll l).errs := by
    simp [ErrorPool.Wait, Pool.wait, hfault]
  have hs : ((cleanPool b).runAll l).errs.isSome = l.any Option.isSome := by
    rw [runAll_errs_isSome]
    rfl
  refine ⟨?_, hs⟩
  rw [hw]
  constructor
  · intro h
    have he : ((cleanPool b).runAll l).errs = none := by
      injection h
    rw [he] at hs
    rw [all_isNone_eq_not_any_isSome, ← hs]
    rfl
  · intro h
    rw [all_isNone_eq_not_any_isSome, ← hs] at h
    have he : ((cleanPool b).runAll l).errs = none := by
      cases hc : ((cleanPool b).runAll l).errs with
      | none => rfl
      | some x => rw [hc] at h; exact absurd h (by simp)
    rw [he]

/-- C3: with `WithFirstError()` set, after any batch of completions that
stored the error `e`, any further completions leave it untouched, so
`Wait()` returns exactly `e`, and `e` is literally one of the error
values the tasks of the first batch returned (never a combined
aggregate of several). -/
theorem firstError_wait_single (l₁ l₂ : List (Option GoError)) (e : GoError)
    (h : ((cleanPool true).runAll l₁).errs = some e) :
    ((cleanPool true).runAll (l₁ ++ l₂)).Wait = Except.ok (some e)
    ∧ some e ∈ l₁ := by
  have happ : (cleanPool true).runAll (l₁ ++ l₂)
      = ((cleanPool true).runAll l₁).runAll l₂ := by
    simp [ErrorPool.runAll, List.foldl_append]
  have hflag : ((cleanPool true).runAll l₁).onlyFirstError = true :=
    (runAll_frame (cleanPool true) l₁).1
  have herr : (((cleanPool true).runAll l₁).runAll l₂).errs = some e :=
    first_persist _ l₂ e hflag h
  have hpool : (((cleanPool true).runAll l₁).runAll l₂).pool = (cleanPool true).pool := by
    rw [(runAll_frame _ l₂).2, (runAll_frame _ l₁).2]
  have hfault : (((cleanPool true).runAll l₁).runAll l₂).pool.fault = none := by
    rw [hpool]; rfl
  refine ⟨?_, first_mem (cleanPool true) l₁ e rfl rfl h⟩
  rw [happ]
  simp [ErrorPool.Wait, Pool.wait, hfault, herr]

/-- Witness for C3 at a concrete run: the first non-nil completion
`leaf "a"` is stored, a later completion `leaf "b"` does not replace
it, and the stored error is one of the first batch's values. -/
theorem firstError_wait_single_witness :
    (((cleanPool true).runAll [none, some (GoError.leaf "a")]).errs = some (GoError.leaf "a"))
    ∧ (((cleanPool true).runAll ([none, some (GoError.leaf "a")] ++ [some (GoError.leaf "b")])).Wait
          = Except.ok (some (GoError.leaf "a"))
        ∧ some (GoError.leaf "a") ∈ [none, some (GoError.leaf "a")]) :=
  ⟨rfl, firstError_wait_single [none, some (GoError.leaf "a")] [some (GoError.leaf "b")]
    (GoError.leaf "a") rfl⟩

/-- C4: without `WithFirstError()`, tasks failing with messages "err1"
and "err2" (in either completion order) make `Wait()` return an
aggregate error whose rendered text contains both substrings "err1" and
"err2". -/
theorem default_wait_combined :
    ((((cleanPool false).runAll
          [some (GoError.leaf "err1"), some (GoError.leaf "err2")]).Wait
        = Except.ok (some (GoError.multi ["err1", "err2"])))
      ∧ containsSub "err1" (GoError.render (GoError.multi ["err1", "err2"])) = true
      ∧ containsSub "err2" (GoError.render (GoError.multi ["err1", "err2"])) = true)
    ∧ ((((cleanPool false).runAll
          [some (GoError.leaf "err2"), some (GoError.leaf "err1")]).Wait
        = Except.ok (some (GoError.multi ["err2", "err1"])))
      ∧ containsSub "err1" (GoError.render (GoError.multi ["err2", "err1"])) = true
      ∧ containsSub "err2" (GoError.render (GoError.multi ["err2", "err1"])) = true) := by
  exact ⟨⟨rfl, by decide, by decide⟩, ⟨rfl, by decide, by decide⟩⟩

/-- C5: the error-combining operation is monoid-like with nil as
identity: either nil argument yields the other; combining two non-nil
errors yields the aggregate of the concatenated leaf sequences
(an aggregate contributes its leaves, not itself); the leaf sequence of
a combination is always the concatenation of the leaf sequences, which
also makes the combination associative at the leaf level. -/
theorem append_monoid_laws (a b c : Option GoError) (x y : GoError) :
    Append none b = b
    ∧ Append a none = a
    ∧ Append (some x) (some y) = some (GoError.multi (x.leaves ++ y.leaves))
    ∧ leavesOpt (Append a b) = leavesOpt a ++ leavesOpt b
    ∧ leavesOpt (Append (Append a b) c) = leavesOpt (Append a (Append b c)) := by
  have hom : ∀ u v : Option GoError, leavesOpt (Append u v) = leavesOpt u ++ leavesOpt v := by
    intro u v
    cases u <;> cases v <;> simp [Append, leavesOpt, GoError.leaves]
  refine ⟨rfl, ?_, rfl, hom a b, ?_⟩
  · cases a <;> rfl
  · rw [hom, hom, hom, hom, List.append_assoc]

/-- C6: `ErrorPool.Wait` drains every outstanding completion (the error
state reflects all returned errors of the batch) and then re-raises the
first captured fault; when a fault was captured, `Wait` ends in the
re-raise branch — it never returns the (possibly non-nil) error value
as a normal result. -/
theorem wait_fault_priority (b : Bool) (os : List TaskOutcome) (f : Fault)
    (h : firstFault os = some f) :
    ((cleanPool b).drain os).Wait = Except.error f
    ∧ ((cleanPool b).drain os).errs
        = ((cleanPool b).runAll (os.filterMap TaskOutcome.retErr)).errs := by
  have hfault : ((cleanPool b).drain os).pool.fault = some f := by
    rw [drain_fault]
    exact h
  refine ⟨?_, (drain_errs (cleanPool b) os).1⟩
  simp [ErrorPool.Wait, Pool.wait, hfault]

/-- Witness for C6 at a concrete run: one task returns an error and a
later one faults; `Wait` re-raises the fault instead of returning the
pending error value. -/
theorem wait_fault_priority_witness :
    (firstFault [TaskOutcome.ret (some (GoError.leaf "e")),
        TaskOutcome.fault ⟨"boom", "stack"⟩] = some ⟨"boom", "stack"⟩)
    ∧ (((cleanPool false).drain [TaskOutcome.ret (some (GoError.leaf "e")),
          TaskOutcome.fault ⟨"boom", "stack"⟩]).Wait = Except.error ⟨"boom", "stack"⟩
      ∧ ((cleanPool false).drain [TaskOutcome.ret (some (GoError.leaf "e")),
          TaskOutcome.fault ⟨"boom", "stack"⟩]).errs
        = ((cleanPool false).runAll ([TaskOutcome.ret (some (GoError.leaf "e")),
            TaskOutcome.fault ⟨"boom", "stack"⟩].filterMap TaskOutcome.retErr)).errs) :=
  ⟨rfl, wait_fault_priority false [TaskOutcome.ret (some (GoError.leaf "e")),
    TaskOutcome.fault ⟨"boom", "stack"⟩] ⟨"boom", "stack"⟩ rfl⟩

/-- C2 counterexample: on a pool that has already run a task (a `Go`
call happened and completed), `WithFirstError` still succeeds — it
returns the reconfigured pool and raises no `ConfigError` of either
kind, refuting the claimed fail-fast behaviour. -/
theorem config_after_go_counterexample :
    (ErrorPool.withFirstErrorChecked ((cleanPool false).runAll [some (GoError.leaf "boom")])
      = Except.ok { (cleanPool false).runAll [some (GoError.leaf "boom")]
                      with onlyFirstError := true })
    ∧ ErrorPool.withFirstErrorChecked ((cleanPool false).runAll [some (GoError.leaf "boom")])
        ≠ Except.error ConfigError.configAfterStart
    ∧ ErrorPool.withFirstErrorChecked ((cleanPool false).runAll [some (GoError.leaf "boom")])
        ≠ Except.error ConfigError.badBound :=
  ⟨rfl, fun h => Except.noConfusion h, fun h => Except.noConfusion h⟩

/-- C2 amended: `ErrorPool` keeps no lifecycle state, so configuration
calls made after the first `Go()` do not fail fast: `WithFirstError`
unconditionally sets the flag and returns the pool in every state. -/
theorem withFirstError_no_lifecycle_check (p : ErrorPool) :
    ErrorPool.withFirstErrorChecked p = Except.ok { p with onlyFirstError := true } := rfl

/-- C7: `WithContext` derives a cancelable child of the given context
and embeds a fresh copy of the error pool determined solely by the
source's error-mode flag and limiter bound — every mutable field
(outstanding counter, fault slot, error state) starts at its zero
value, and mutating the source pool's error state (running completions
on it) leaves the derived pool identical, so the two share no state. -/
theorem withContext_fresh (p : ErrorPool) (ctx : Context) (l : List (Option GoError)) :
    p.withContext ctx = freshContextPool p.onlyFirstError p.pool.limit ctx
    ∧ (p.runAll l).withContext ctx = p.withContext ctx := by
  constructor
  · rfl
  · show freshContextPool (p.runAll l).onlyFirstError (p.runAll l).pool.limit ctx
        = freshContextPool p.onlyFirstError p.pool.limit ctx
    rw [(runAll_frame p l).1, (runAll_frame p l).2]

/-- C8: a pool configured with `WithMaxGoroutines n` has limiter
capacity `n`, and along every execution trace admitted by that limiter
the number of concurrently executing tasks never exceeds `n`, however
many tasks are submitted. -/
theorem withMaxGoroutines_bounds_concurrency (b : Bool) (n : Nat) (t : List PoolEvent)
    (_hn : 1 ≤ n) (ht : traceOk n 0 t = true) :
    ((cleanPool b).WithMaxGoroutines n).pool.limit = some n
    ∧ maxActive 0 t ≤ n :=
  ⟨rfl, maxActive_le n t 0 (Nat.zero_le n) ht⟩

/-- Witness for C8 at capacity 2 and a six-event trace that reaches the
peak of exactly 2 concurrently running tasks. -/
theorem withMaxGoroutines_bounds_concurrency_witness :
    ((1 : Nat) ≤ 2
      ∧ traceOk 2 0 [PoolEvent.start, PoolEvent.start, PoolEvent.finish,
          PoolEvent.start, PoolEvent.finish, PoolEvent.finish] = true)
    ∧ (((cleanPool false).WithMaxGoroutines 2).pool.limit = some 2
      ∧ maxActive 0 [PoolEvent.start, PoolEvent.start, PoolEvent.finish,
          PoolEvent.start, PoolEvent.finish, PoolEvent.finish] ≤ 2) :=
  ⟨⟨by decide, by decide⟩,
    withMaxGoroutines_bounds_concurrency false 2
      [PoolEvent.start, PoolEvent.start, PoolEvent.finish,
        PoolEvent.start, PoolEvent.finish, PoolEvent.finish] (by decide) (by decide)⟩

/-- C9: the error state is monotone in both error modes: once `errs` is
non-nil, no further batch of `addErr` calls (with nil or non-nil
arguments) ever resets it to nil. -/
theorem addErr_monotone (p : ErrorPool) (l : List (Option GoError))
    (h : p.errs.isSome = true) : ((p.runAll l).errs).isSome = true := by
  rw [runAll_errs_isSome, h]
  exact Bool.true_or _

/-- Witness for C9 at a concrete state holding `leaf "x"` and a batch
containing nil and non-nil completions. -/
theorem addErr_monotone_witness :
    (({ cleanPool false with errs := some (GoError.leaf "x") } : ErrorPool).errs.isSome = true)
    ∧ ((({ cleanPool false with errs := some (GoError.leaf "x") } : ErrorPool).runAll
        [none, some (GoError.leaf "y"), none]).errs.isSome = true) :=
  ⟨rfl, addErr_monotone { cleanPool false with errs := some (GoError.leaf "x") }
    [none, some (GoError.leaf "y"), none] rfl⟩

/-- C10: the `ContextPool` produced by `WithContext` always starts with
nil captured-error state, even when the source pool has already run
completions and holds errors, and it carries the source's error-mode
flag. -/
theorem withContext_no_inherited_errs (p : ErrorPool) (ctx : Context)
    (l : List (Option GoError)) :
    ((p.runAll l).withContext ctx).errorPool.errs = none
    ∧ ((p.runAll l).withContext ctx).errorPool.onlyFirstError = p.onlyFirstError :=
  ⟨rfl, (runAll_frame p l).1⟩

end Sugar
